import Mathlib

/-!
Verification of the radar-admin item-form transformation layer.

The development shallowly embeds the logic of
src/components/radars/form/item/RadarItemForm.tsx (reconciliation effect,
radar-change handler, submit dispatch, append and remove guards) and
src/components/radars/form/utils.ts (ring and quadrant field transforms).
JavaScript objects used as string-keyed maps are embedded as
insertion-ordered association lists, matching object key enumeration
order for string keys; object field access is `lookupMap`.

The formatter and submit-transform helpers imported by the component from
src/components/radars/form/item/utils.ts and the select formatters of
src/components/radars/form/utils.ts are not part of the available sources;
those definitions are modelled from the specification and marked as such.
-/

namespace RadarAdmin

/-- Wire entry of a radar item: one pair of radar id and quadrant name,
one entry per quadrant the item occupies in that radar (spec data model). -/
structure WireEntry where
  id : String
  quadrant : String
deriving DecidableEq

/-- Radar catalog record: id, display name, ring names and quadrant names. -/
structure Radar where
  id : String
  name : String
  rings : List String
  quadrants : List String
deriving DecidableEq

/-- Generic option shape consumed by the selection widgets. -/
structure SelectItem where
  id : String
  label : String
deriving DecidableEq

/-- One editable radar association row of the item form. -/
structure FormRadarAssoc where
  radarId : String
  label : String
  quadrants : List SelectItem
deriving DecidableEq

/-- Derived map from radar id to the quadrants the item occupies there,
embedded as an insertion-ordered association list. -/
abbrev ItemRadarsMap := List (String × List String)

/-- Catalog map from radar id to its record, insertion ordered. -/
abbrev RadarsMap := List (String × Radar)

/-- Keys of an association list, in enumeration order. -/
def keys {α : Type} (m : List (String × α)) : List String :=
  m.map Prod.fst

/-- Field access on a string-keyed object: first entry with the key. -/
def lookupMap {α : Type} : List (String × α) → String → Option α
  | [], _ => none
  | (k, v) :: rest, key => if k = key then some v else lookupMap rest key

/-- One step of the itemRadarsMap reduce of RadarItemForm.tsx:
acc[id] = acc[id] || (quadrants: []); acc[id].quadrants.push(quadrant).
Pushing extends the existing entry in place; a fresh key is appended. -/
def insertQuadrant : ItemRadarsMap → String → String → ItemRadarsMap
  | [], key, q => [(key, [q])]
  | (k, qs) :: rest, key, q =>
    if k = key then (k, qs ++ [q]) :: rest
    else (k, qs) :: insertQuadrant rest key q

/-- The itemRadarsMap reduce of RadarItemForm.tsx: group the flat wire
list of the item by radar id. -/
def itemRadarsMap (wire : List WireEntry) : ItemRadarsMap :=
  wire.foldl (fun acc e => insertQuadrant acc e.id e.quadrant) []

/-- One step of the radarsMap reduce of RadarItemForm.tsx: acc[r.id] = r.
Assignment to an existing key overwrites in place, a fresh key appends. -/
def assignRadar : RadarsMap → Radar → RadarsMap
  | [], r => [(r.id, r)]
  | (k, v) :: rest, r =>
    if k = r.id then (k, r) :: rest else (k, v) :: assignRadar rest r

/-- The radarsMap reduce of RadarItemForm.tsx: index the catalog by id. -/
def radarsMap (radars : List Radar) : RadarsMap :=
  radars.foldl assignRadar []

/-- Modelled from the spec: formatSelectData of the missing
src/components/radars/form formatter module maps a sequence of raw values
to identity-labelled options, preserving input order. -/
def formatSelectData (values : List String) : List SelectItem :=
  values.map (fun v => { id := v, label := v })

/-- Modelled from the spec: formatSelectItem of the missing formatter
module wraps a bare value as an identity-labelled option and turns an
absent input into a neutral empty option. -/
def formatSelectItem : Option String → SelectItem
  | none => { id := "", label := "" }
  | some v => { id := v, label := v }

/-- Tri-state probation flag of the wire shape. -/
inductive ProbationResult where
  | passed
  | failed
  | absent
deriving DecidableEq

/-- Modelled from the spec: formatProbationResult of the missing formatter
module collapses the tri-state to a boolean, absent and failed to false. -/
def formatProbationResult : ProbationResult → Bool
  | ProbationResult.passed => true
  | ProbationResult.failed => false
  | ProbationResult.absent => false

/-- Modelled from the spec: formatItemRadar of the missing
src/components/radars/form/item/utils.ts assembles one form association
row from a radar id, a display label and formatted quadrant options. -/
def formatItemRadar (radarId label : String) (quadrants : List SelectItem) :
    FormRadarAssoc :=
  { radarId := radarId, label := label, quadrants := quadrants }

/-- The formattedItemRadars mapping of the reconciliation effect: walk the
grouped map in key order and build one row per key, resolving the label as
radarsMap[radarId].name. A missing catalog entry makes the field access
throw, embedded as the whole computation returning none; the source has no
fallback branch. -/
def formatRows (rm : RadarsMap) : ItemRadarsMap → Option (List FormRadarAssoc)
  | [] => some []
  | (k, qs) :: rest =>
    match lookupMap rm k, formatRows rm rest with
    | some r, some rows =>
      some (formatItemRadar k r.name (formatSelectData qs) :: rows)
    | _, _ => none

/-- Rows produced by the reconciliation effect of RadarItemForm.tsx from a
fetched catalog and the flat wire list of the fetched item. -/
def formattedItemRadars (radars : List Radar) (wire : List WireEntry) :
    Option (List FormRadarAssoc) :=
  formatRows (radarsMap radars) (itemRadarsMap wire)

/-- The handleRadarChange handler of RadarItemForm.tsx. Returns the new
row content written through setValue, or none when the early-return guard
fires (falsy selected id or absent catalog) or the radar is not found. -/
def handleRadarChange (radars : Option (List Radar))
    (itemRadars : ItemRadarsMap) (selectedRadarId : Option String) :
    Option FormRadarAssoc :=
  match selectedRadarId, radars with
  | some sel, some rs =>
    if sel = "" then none
    else
      match rs.find? (fun r => r.id == sel) with
      | some selectedRadar =>
        some
          { radarId := sel
            label := selectedRadar.name
            quadrants :=
              formatSelectData
                ((lookupMap itemRadars sel).getD selectedRadar.quadrants) }
      | none => none
  | _, _ => none

/-- Modelled from the spec: the radars portion of transformItemFormData of
the missing src/components/radars/form/item/utils.ts flattens each form
association row into one wire pair per selected quadrant option,
discarding the display label. -/
def transformItemRadars (rows : List FormRadarAssoc) : List WireEntry :=
  rows.flatMap
    (fun row => row.quadrants.map (fun q => { id := row.radarId, quadrant := q.id }))

/-- Wire shape of a radar item. -/
structure RadarItem where
  id : String
  name : String
  description : String
  ring : String
  ru : Bool
  probation_result : ProbationResult
  radars : List WireEntry
deriving DecidableEq

/-- Form-shape values of the item form. -/
structure RadarItemFormData where
  name : String
  description : String
  ring : SelectItem
  ru : Bool
  ftt_matches : Bool
  radars : List FormRadarAssoc
deriving DecidableEq

/-- Per-session state touched by the reconciliation effect: the itemRadars
useState value and the form values. -/
structure SessionState where
  itemRadars : ItemRadarsMap
  form : RadarItemFormData
deriving DecidableEq

/-- Form values written by the reset call of the reconciliation effect. -/
def resetFromItem (it : RadarItem) (rows : List FormRadarAssoc) :
    RadarItemFormData :=
  { name := it.name
    description := it.description
    ring := formatSelectItem (some it.ring)
    ru := it.ru
    ftt_matches := formatProbationResult it.probation_result
    radars := rows }

/-- The reconciliation useEffect of RadarItemForm.tsx: return unchanged
while either fetch is unresolved; otherwise store the grouped map and
reset the form. When the label lookup throws, setItemRadars has already
run but reset has not, so only the itemRadars component changes. -/
def reconcileEffect (radars : Option (List Radar)) (item : Option RadarItem)
    (st : SessionState) : SessionState :=
  match radars, item with
  | some rs, some it =>
    match formatRows (radarsMap rs) (itemRadarsMap it.radars) with
    | some rows =>
      { itemRadars := itemRadarsMap it.radars, form := resetFromItem it rows }
    | none => { st with itemRadars := itemRadarsMap it.radars }
  | _, _ => st

/-- Outcome of the single service call awaited inside formSubmit. -/
inductive CallOutcome where
  | resolves
  | rejects
deriving DecidableEq

/-- One addSnackbar invocation. -/
structure SnackbarCall where
  message : String
  status : String
deriving DecidableEq

/-- Observable trace of one formSubmit run: how many times each service
call was invoked, whether the error was logged at the call site, and the
snackbar invocations in order. -/
structure SubmitTrace where
  updateCalls : Nat
  createCalls : Nat
  errorLogged : Bool
  snackbars : List SnackbarCall
deriving DecidableEq

/-- JavaScript truthiness of the optional string item id: undefined and
the empty string are falsy. -/
def truthyId : Option String → Bool
  | none => false
  | some s => !(s == "")

/-- The formSubmit handler of RadarItemForm.tsx as a trace function over
the outcome of the awaited service call: a truthy itemId dispatches to
updateRadarItem, otherwise createRadarItem; rejection is caught at the
call site, logged, and surfaced through one alert snackbar; resolution
surfaces one success snackbar. -/
def formSubmit (itemId : Option String) (outcome : CallOutcome) : SubmitTrace :=
  if truthyId itemId then
    match outcome with
    | CallOutcome.resolves =>
      { updateCalls := 1, createCalls := 0, errorLogged := false
        snackbars := [{ message := "Элемент успешно обновлен", status := "success" }] }
    | CallOutcome.rejects =>
      { updateCalls := 1, createCalls := 0, errorLogged := true
        snackbars := [{ message := "Возникла ошибка", status := "alert" }] }
  else
    match outcome with
    | CallOutcome.resolves =>
      { updateCalls := 0, createCalls := 1, errorLogged := false
        snackbars := [{ message := "Элемент успешно создан", status := "success" }] }
    | CallOutcome.rejects =>
      { updateCalls := 0, createCalls := 1, errorLogged := true
        snackbars := [{ message := "Возникла ошибка", status := "alert" }] }

/-- Disabled state of the add-association button of RadarItemForm.tsx:
fields.length === radars?.length; with the catalog still unresolved the
comparison with undefined is false. -/
def appendDisabled (numRows : Nat) (radars : Option (List Radar)) : Bool :=
  match radars with
  | some rs => decide (numRows = rs.length)
  | none => false

/-- The row appended by the add-association button. -/
def newAssociationRow : FormRadarAssoc :=
  { radarId := "", label := "", quadrants := [] }

/-- Effect of the add-association action guarded by its disabled state. -/
def appendAssociation (rows : List FormRadarAssoc)
    (radars : Option (List Radar)) : List FormRadarAssoc :=
  if appendDisabled rows.length radars then rows else rows ++ [newAssociationRow]

/-- Visibility of the per-row remove button: fields.length > 1. -/
def removeButtonVisible (numRows : Nat) : Bool :=
  decide (1 < numRows)

/-- Effect of the remove action, available only through a rendered button. -/
def removeAssociation (rows : List FormRadarAssoc) (i : Nat) :
    List FormRadarAssoc :=
  if removeButtonVisible rows.length then rows.eraseIdx i else rows

/-- MAX_RINGS of src/components/radars/form/utils.ts. -/
def MAX_RINGS : Nat := 4

/-- MAX_QUADRANTS of src/components/radars/form/utils.ts. -/
def MAX_QUADRANTS : Nat := 4

/-- Field record of the ring and quadrant list editors. -/
structure FormField where
  value : String
deriving DecidableEq

/-- formatFieldsToObjects of src/components/radars/form/utils.ts. -/
def formatFieldsToObjects (fields : List String) : List FormField :=
  fields.map (fun field => { value := field })

/-- formatFieldsToArray of src/components/radars/form/utils.ts. -/
def formatFieldsToArray (fields : List FormField) : List String :=
  fields.map (fun f => f.value)

/-- Disabled state of the ring append button of RingFields.tsx. -/
def ringAppendDisabled (numFields : Nat) : Bool :=
  decide (MAX_RINGS ≤ numFields)

/-- Disabled state of the quadrant append button of QuadrantFields.tsx. -/
def quadrantAppendDisabled (numFields : Nat) : Bool :=
  decide (MAX_QUADRANTS ≤ numFields)

/-- Quadrant values carried for one radar id by the wire list, in wire
order; the grouped value the reconciliation associates with that id. -/
def quadsOf (wire : List WireEntry) (k : String) : List String :=
  (wire.filter (fun e => e.id == k)).map (fun e => e.quadrant)

/-- Distinct ids of a wire list in order of first appearance, relative to
a set of ids already seen. -/
def firstSeenAux (seen : List String) : List WireEntry → List String
  | [] => []
  | e :: rest =>
    if e.id ∈ seen then firstSeenAux seen rest
    else e.id :: firstSeenAux (e.id :: seen) rest

/-- Distinct ids of a wire list in order of first appearance. -/
def firstSeenIds (wire : List WireEntry) : List String :=
  firstSeenAux [] wire

/-- Label of a radar id resolved from the catalog (first record with that
id), empty when absent. -/
def catalogLabel (radars : List Radar) (rid : String) : String :=
  match radars.find? (fun r => r.id == rid) with
  | some r => r.name
  | none => ""

/-- Normal form of a wire list under contiguous grouping: the entries of
each first-seen radar id made contiguous, groups in first-seen order. -/
def contiguousGrouping (wire : List WireEntry) : List WireEntry :=
  (firstSeenIds wire).flatMap (fun k => wire.filter (fun e => e.id == k))

/-- Catalog record chosen by the last assignment for a key, mirroring the
overwrite semantics of the radarsMap reduce. -/
def findLastRadar : List Radar → String → Option Radar
  | [], _ => none
  | r :: rest, key =>
    match findLastRadar rest key with
    | some r2 => some r2
    | none => if r.id = key then some r else none

/-- Sample catalog, the end-to-end scenario of the specification. -/
def sampleCatalog : List Radar :=
  [{ id := "r1", name := "Radar One", rings := [], quadrants := ["q1", "q2", "q3"] },
   { id := "r2", name := "Radar Two", rings := [], quadrants := ["q3", "q4"] }]

/-- Sample wire list, the end-to-end scenario of the specification. -/
def sampleWire : List WireEntry :=
  [{ id := "r1", quadrant := "q1" },
   { id := "r1", quadrant := "q2" },
   { id := "r2", quadrant := "q3" }]

/-- Sample association rows for guard witnesses. -/
def sampleRows : List FormRadarAssoc :=
  [{ radarId := "r1", label := "Radar One",
     quadrants := [{ id := "q1", label := "q1" }, { id := "q2", label := "q2" }] },
   { radarId := "r2", label := "Radar Two",
     quadrants := [{ id := "q3", label := "q3" }] }]

/-- Catalog radar with an empty id, a falsy value for the selection guard. -/
def emptyIdRadar : Radar :=
  { id := "", name := "Empty Id Radar", rings := [], quadrants := ["q1"] }

/-- C9: for every list of strings, formatFieldsToArray undoes
formatFieldsToObjects exactly; both transforms preserve length and element
order and impose no length constraint of their own, holding for lists of
any length including beyond the ring and quadrant maxima. -/
theorem claim9_field_transforms_roundtrip :
    ∀ (xs : List String) (fs : List FormField),
      formatFieldsToArray (formatFieldsToObjects xs) = xs ∧
      (formatFieldsToObjects xs).length = xs.length ∧
      (formatFieldsToArray fs).length = fs.length := by
  intro xs fs
  refine ⟨?_, ?_, ?_⟩
  · induction xs with
    | nil => rfl
    | cons x rest ih => simpa [formatFieldsToObjects, formatFieldsToArray] using ih
  · simp [formatFieldsToObjects]
  · simp [formatFieldsToArray]

/-- C4: a form association row whose selected quadrant list is empty
contributes zero wire pairs to the submit transform, so after flattening
it is indistinguishable from having removed the row. -/
theorem claim4_empty_quadrant_row_flattens_to_nothing
    (pre post : List FormRadarAssoc) (row : FormRadarAssoc)
    (h : row.quadrants = []) :
    transformItemRadars (pre ++ row :: post) = transformItemRadars (pre ++ post) := by
  simp [transformItemRadars, h]

/-- Witness for C4 at a concrete row with all quadrants deselected. -/
theorem claim4_witness :
    transformItemRadars
        (sampleRows ++ { radarId := "r3", label := "Radar Three", quadrants := [] } :: []) =
      transformItemRadars (sampleRows ++ []) :=
  claim4_empty_quadrant_row_flattens_to_nothing sampleRows []
    { radarId := "r3", label := "Radar Three", quadrants := [] } rfl

/-- C5: once the number of association rows equals the catalog size the
add-association button is disabled and appending is a no-op, and under the
cap invariant the append action never pushes the row count above the
number of radars in the catalog. -/
theorem claim5_append_capped_by_catalog
    (rows : List FormRadarAssoc) (rs : List Radar)
    (h : rows.length ≤ rs.length) :
    (rows.length = rs.length →
      appendDisabled rows.length (some rs) = true ∧
      appendAssociation rows (some rs) = rows) ∧
    (appendAssociation rows (some rs)).length ≤ rs.length := by
  constructor
  · intro he
    constructor
    · simp [appendDisabled, he]
    · simp [appendAssociation, appendDisabled, he]
  · by_cases he : rows.length = rs.length
    · simp [appendAssociation, appendDisabled, he]
    · have hlt : rows.length < rs.length := lt_of_le_of_ne h he
      have hd : appendDisabled rows.length (some rs) = false := by
        simp [appendDisabled, he]
      have h2 : appendAssociation rows (some rs) = rows ++ [newAssociationRow] := by
        simp [appendAssociation, hd]
      rw [h2]
      simp only [List.length_append, List.length_cons, List.length_nil]
      omega

/-- Witness for C5 at the sample rows and catalog, both of size two. -/
theorem claim5_witness :
    (sampleRows.length = sampleCatalog.length →
      appendDisabled sampleRows.length (some sampleCatalog) = true ∧
      appendAssociation sampleRows (some sampleCatalog) = sampleRows) ∧
    (appendAssociation sampleRows (some sampleCatalog)).length ≤ sampleCatalog.length :=
  claim5_append_capped_by_catalog sampleRows sampleCatalog (by decide)

/-- C10: with exactly one association row the remove button is not
rendered, and the guarded remove action leaves the single row in place,
so the row count can never drop from one to zero. -/
theorem claim10_last_row_not_removable
    (rows : List FormRadarAssoc) (i : Nat) (h : rows.length = 1) :
    removeButtonVisible rows.length = false ∧ removeAssociation rows i = rows := by
  constructor
  · simp [removeButtonVisible, h]
  · simp [removeAssociation, removeButtonVisible, h]

/-- Witness for C10 at a concrete single-row state. -/
theorem claim10_witness :
    removeButtonVisible [newAssociationRow].length = false ∧
    removeAssociation [newAssociationRow] 0 = [newAssociationRow] :=
  claim10_last_row_not_removable [newAssociationRow] 0 rfl

/-- C8: the reconciliation effect leaves the session state untouched while
either the catalog or the item record is unresolved, and re-running it
with the same resolved inputs reproduces the same state. -/
theorem claim8_reconcile_gated_and_idempotent :
    (∀ (item : Option RadarItem) (st : SessionState),
        reconcileEffect none item st = st) ∧
    (∀ (radars : Option (List Radar)) (st : SessionState),
        reconcileEffect radars none st = st) ∧
    (∀ (radars : Option (List Radar)) (item : Option RadarItem) (st : SessionState),
        reconcileEffect radars item (reconcileEffect radars item st) =
          reconcileEffect radars item st) := by
  refine ⟨?_, ?_, ?_⟩
  · intro item st
    cases item <;> rfl
  · intro radars st
    cases radars <;> rfl
  · intro radars item st
    cases radars with
    | none => cases item <;> rfl
    | some rs =>
      cases item with
      | none => rfl
      | some it =>
        show reconcileEffect (some rs) (some it) _ = _
        unfold reconcileEffect
        cases h : formatRows (radarsMap rs) (itemRadarsMap it.radars) with
        | some rows => simp [h]
        | none => simp [h]

/-- C7 counterexample: with the item id present but equal to the empty
string, the submit dispatch calls createRadarItem rather than
updateRadarItem, because the JavaScript truthiness test treats the empty
string as absent. -/
theorem claim7_counterexample :
    (some "" : Option String).isSome = true ∧
    (formSubmit (some "") CallOutcome.resolves).updateCalls = 0 ∧
    (formSubmit (some "") CallOutcome.resolves).createCalls = 1 := by
  decide

/-- C7 amended: updateRadarItem is called exactly when a truthy (present
and non-empty) itemId is given, otherwise createRadarItem; rejection is
caught at the call site, logged, and surfaced through a single alert
snackbar with the generic failure message; resolution surfaces a single
success snackbar; exactly one service call happens per submission, so
there is no retry and no partial-success handling. -/
theorem claim7_submit_dispatch_and_error_policy
    (itemId : Option String) (outcome : CallOutcome) :
    (formSubmit itemId outcome).updateCalls = (if truthyId itemId then 1 else 0) ∧
    (formSubmit itemId outcome).createCalls = (if truthyId itemId then 0 else 1) ∧
    (formSubmit itemId outcome).updateCalls + (formSubmit itemId outcome).createCalls = 1 ∧
    (formSubmit itemId CallOutcome.rejects).errorLogged = true ∧
    (formSubmit itemId CallOutcome.rejects).snackbars =
      [{ message := "Возникла ошибка", status := "alert" }] ∧
    (formSubmit itemId CallOutcome.resolves).errorLogged = false ∧
    (formSubmit itemId CallOutcome.resolves).snackbars =
      [{ message := if truthyId itemId then "Элемент успешно обновлен"
                    else "Элемент успешно создан",
         status := "success" }] := by
  cases h : truthyId itemId <;> cases outcome <;>
    simp [formSubmit, h]

/-- C3 counterexample: a radar whose id is the empty string is present in
the catalog and selected, yet the radar-change handler performs no update
at all, because the early-return guard treats the empty id as falsy. -/
theorem claim3_counterexample :
    (([emptyIdRadar].find? (fun r => r.id == "")).isSome = true) ∧
    handleRadarChange (some [emptyIdRadar]) [] (some "") = none := by
  decide

/-- C3 amended: for every association row and every non-empty selected
radar id found in the fetched catalog, the handler writes the selected id
as the row radarId, the name of the chosen radar as its label, and as
quadrant options the persisted quadrant subset from the derived
ItemRadarsMap when an entry exists, otherwise all quadrants of the chosen
radar, in both cases formatted as identity-labelled options. -/
theorem claim3_radar_change_populates_row
    (rs : List Radar) (irm : ItemRadarsMap) (sel : String) (r : Radar)
    (hsel : sel ≠ "") (hfind : rs.find? (fun x => x.id == sel) = some r) :
    handleRadarChange (some rs) irm (some sel) =
      some { radarId := sel, label := r.name,
             quadrants := formatSelectData ((lookupMap irm sel).getD r.quadrants) } := by
  simp [handleRadarChange, hsel, hfind]

/-- Witness for C3 amended exercising both quadrant sources: radar r1 has
a persisted entry in the derived map, radar r2 does not and receives all
of its quadrants. -/
theorem claim3_witness :
    handleRadarChange (some sampleCatalog) [("r1", ["q1", "q2"])] (some "r2") =
      some { radarId := "r2", label := "Radar Two",
             quadrants := formatSelectData
               ((lookupMap [("r1", ["q1", "q2"])] "r2").getD ["q3", "q4"]) } :=
  claim3_radar_change_populates_row sampleCatalog [("r1", ["q1", "q2"])] "r2"
    { id := "r2", name := "Radar Two", rings := [], quadrants := ["q3", "q4"] }
    (by decide) (by decide)

theorem keys_insertQuadrant (acc : ItemRadarsMap) (k q : String) :
    keys (insertQuadrant acc k q) =
      if k ∈ keys acc then keys acc else keys acc ++ [k] := by
  induction acc with
  | nil => simp [insertQuadrant, keys]
  | cons p rest ih =>
    obtain ⟨a, qs⟩ := p
    by_cases hak : a = k
    · subst hak
      simp [insertQuadrant, keys]
    · have hka : ¬k = a := fun h => hak h.symm
      simp only [insertQuadrant, if_neg hak, keys, List.map_cons] at ih ⊢
      rw [ih]
      by_cases hmem : k ∈ List.map Prod.fst rest
      · simp [hmem, List.mem_cons]
      · simp [hmem, hka, List.mem_cons]

theorem insertQuadrant_of_not_mem (acc : ItemRadarsMap) (k q : String)
    (h : k ∉ keys acc) : insertQuadrant acc k q = acc ++ [(k, [q])] := by
  induction acc with
  | nil => rfl
  | cons p rest ih =>
    obtain ⟨a, qs⟩ := p
    simp only [keys, List.map_cons, List.mem_cons] at h
    push_neg at h
    rw [insertQuadrant, if_neg (fun hh => h.1 hh.symm)]
    simp only [List.cons_append, List.cons.injEq, true_and]
    exact ih h.2

theorem insertQuadrant_of_mem (acc : ItemRadarsMap) (k q : String)
    (hnd : (keys acc).Nodup) (h : k ∈ keys acc) :
    insertQuadrant acc k q =
      acc.map (fun p => if p.1 = k then (p.1, p.2 ++ [q]) else p) := by
  induction acc with
  | nil => simp [keys] at h
  | cons p rest ih =>
    obtain ⟨a, qs⟩ := p
    simp only [keys, List.map_cons, List.nodup_cons] at hnd
    by_cases hak : a = k
    · subst hak
      have hrest : rest.map (fun p => if p.1 = a then (p.1, p.2 ++ [q]) else p) = rest := by
        have hpw : ∀ p ∈ rest, (if p.1 = a then (p.1, p.2 ++ [q]) else p) = p := by
          intro p hp
          have hpa : p.1 ≠ a := by
            intro hpa
            exact hnd.1 (hpa ▸ List.mem_map_of_mem Prod.fst hp)
          simp [hpa]
        rw [List.map_congr_left hpw]
        simp
      simp [insertQuadrant, hrest]
    · have hk : k ∈ keys rest := by
        simp only [keys] at h ⊢
        rcases List.mem_cons.mp h with h1 | h1
        · exact absurd h1.symm hak
        · exact h1
      rw [insertQuadrant, if_neg hak]
      simp only [List.map_cons, if_neg hak]
      rw [ih hnd.2 hk]

theorem nodup_keys_insertQuadrant (acc : ItemRadarsMap) (k q : String)
    (hnd : (keys acc).Nodup) : (keys (insertQuadrant acc k q)).Nodup := by
  rw [keys_insertQuadrant]
  by_cases hm : k ∈ keys acc
  · simpa [hm] using hnd
  · simp [hm, List.nodup_append, hnd]

theorem not_mem_seen_of_mem_firstSeenAux :
    ∀ (L : List WireEntry) (seen : List String) (k : String),
      k ∈ firstSeenAux seen L → k ∉ seen := by
  intro L
  induction L with
  | nil => intro seen k h; simp [firstSeenAux] at h
  | cons e rest ih =>
    intro seen k h
    by_cases he : e.id ∈ seen
    · rw [firstSeenAux, if_pos he] at h
      exact ih seen k h
    · rw [firstSeenAux, if_neg he] at h
      rcases List.mem_cons.mp h with h1 | h1
      · exact h1 ▸ he
      · intro hk
        exact ih (e.id :: seen) k h1 (List.mem_cons_of_mem _ hk)

theorem firstSeenAux_congr :
    ∀ (L : List WireEntry) (s1 s2 : List String),
      (∀ x, x ∈ s1 ↔ x ∈ s2) → firstSeenAux s1 L = firstSeenAux s2 L := by
  intro L
  induction L with
  | nil => intro s1 s2 _; rfl
  | cons e rest ih =>
    intro s1 s2 hs
    by_cases he : e.id ∈ s1
    · rw [firstSeenAux, if_pos he, firstSeenAux, if_pos ((hs e.id).mp he)]
      exact ih s1 s2 hs
    · rw [firstSeenAux, if_neg he, firstSeenAux,
        if_neg (fun hh => he ((hs e.id).mpr hh))]
      have : ∀ x, x ∈ e.id :: s1 ↔ x ∈ e.id :: s2 := by
        intro x
        simp [List.mem_cons, hs x]
      rw [ih _ _ this]

theorem mem_ids_of_mem_firstSeenAux :
    ∀ (L : List WireEntry) (seen : List String) (k : String),
      k ∈ firstSeenAux seen L → k ∈ L.map WireEntry.id := by
  intro L
  induction L with
  | nil => intro seen k h; simp [firstSeenAux] at h
  | cons e rest ih =>
    intro seen k h
    by_cases he : e.id ∈ seen
    · rw [firstSeenAux, if_pos he] at h
      exact List.mem_cons_of_mem _ (ih seen k h)
    · rw [firstSeenAux, if_neg he] at h
      rcases List.mem_cons.mp h with h1 | h1
      · simp [h1]
      · exact List.mem_cons_of_mem _ (ih (e.id :: seen) k h1)

theorem mem_firstSeenAux_of_mem_ids :
    ∀ (L : List WireEntry) (seen : List String) (k : String),
      k ∈ L.map WireEntry.id → k ∉ seen → k ∈ firstSeenAux seen L := by
  intro L
  induction L with
  | nil => intro seen k h _; simp at h
  | cons e rest ih =>
    intro seen k h hk
    rcases List.mem_cons.mp h with h1 | h1
    · subst h1
      by_cases he : e.id ∈ seen
      · exact absurd he hk
      · rw [firstSeenAux, if_neg he]
        exact List.mem_cons_self _ _
    · by_cases he : e.id ∈ seen
      · rw [firstSeenAux, if_pos he]
        exact ih seen k h1 hk
      · rw [firstSeenAux, if_neg he]
        by_cases hke : k = e.id
        · exact hke ▸ List.mem_cons_self _ _
        · refine List.mem_cons_of_mem _ (ih (e.id :: seen) k h1 ?_)
          simp [List.mem_cons, hke, hk]

theorem nodup_firstSeenAux :
    ∀ (L : List WireEntry) (seen : List String), (firstSeenAux seen L).Nodup := by
  intro L
  induction L with
  | nil => intro seen; simp [firstSeenAux]
  | cons e rest ih =>
    intro seen
    by_cases he : e.id ∈ seen
    · rw [firstSeenAux, if_pos he]; exact ih seen
    · rw [firstSeenAux, if_neg he]
      refine List.nodup_cons.mpr ⟨?_, ih _⟩
      intro hmem
      exact not_mem_seen_of_mem_firstSeenAux rest (e.id :: seen) e.id hmem
        (List.mem_cons_self _ _)

theorem quadsOf_cons (e : WireEntry) (rest : List WireEntry) (k : String) :
    quadsOf (e :: rest) k =
      if e.id = k then e.quadrant :: quadsOf rest k else quadsOf rest k := by
  by_cases h : e.id = k <;> simp [quadsOf, List.filter_cons, h]

theorem foldl_insertQuadrant :
    ∀ (wire : List WireEntry) (acc : ItemRadarsMap), (keys acc).Nodup →
      wire.foldl (fun a e => insertQuadrant a e.id e.quadrant) acc =
        acc.map (fun p => (p.1, p.2 ++ quadsOf wire p.1)) ++
        (firstSeenAux (keys acc) wire).map (fun k => (k, quadsOf wire k)) := by
  intro wire
  induction wire with
  | nil =>
    intro acc _
    simp [quadsOf, firstSeenAux]
  | cons e rest ih =>
    intro acc hnd
    rw [List.foldl_cons]
    by_cases hmem : e.id ∈ keys acc
    · rw [ih _ (nodup_keys_insertQuadrant acc e.id e.quadrant hnd)]
      rw [insertQuadrant_of_mem acc e.id e.quadrant hnd hmem]
      have hkeys : keys (acc.map
          (fun p => if p.1 = e.id then (p.1, p.2 ++ [e.quadrant]) else p)) = keys acc := by
        simp only [keys, List.map_map]
        refine List.map_congr_left ?_
        intro p _
        by_cases hp : p.1 = e.id <;> simp [hp]
      rw [hkeys]
      congr 1
      · rw [List.map_map]
        refine List.map_congr_left ?_
        intro p _
        by_cases hp : p.1 = e.id
        · rw [quadsOf_cons, if_pos hp.symm]
          simp [hp]
        · have hpe : e.id ≠ p.1 := fun h => hp h.symm
          simp [hp, quadsOf_cons, hpe]
      · rw [firstSeenAux, if_pos hmem]
        refine List.map_congr_left ?_
        intro k hk
        have hks : k ∉ keys acc :=
          not_mem_seen_of_mem_firstSeenAux rest (keys acc) k hk
        have hke : e.id ≠ k := fun h => hks (h ▸ hmem)
        rw [quadsOf_cons, if_neg hke]
    · rw [ih _ (nodup_keys_insertQuadrant acc e.id e.quadrant hnd)]
      rw [insertQuadrant_of_not_mem acc e.id e.quadrant hmem]
      have hkeys : keys (acc ++ [(e.id, [e.quadrant])]) = keys acc ++ [e.id] := by
        simp [keys]
      rw [hkeys]
      rw [firstSeenAux, if_neg hmem]
      rw [firstSeenAux_congr rest (keys acc ++ [e.id]) (e.id :: keys acc)
        (by intro x; simp [List.mem_append, List.mem_cons, or_comm])]
      rw [List.map_append]
      have hacc : acc.map (fun p => (p.1, p.2 ++ quadsOf rest p.1)) =
          acc.map (fun p => (p.1, p.2 ++ quadsOf (e :: rest) p.1)) := by
        refine List.map_congr_left ?_
        intro p hp
        have hpk : p.1 ∈ keys acc := List.mem_map_of_mem Prod.fst hp
        have hpe : e.id ≠ p.1 := fun h => hmem (h ▸ hpk)
        rw [quadsOf_cons, if_neg hpe]
      rw [hacc]
      have htail : (firstSeenAux (e.id :: keys acc) rest).map
          (fun k => (k, quadsOf rest k)) =
          (firstSeenAux (e.id :: keys acc) rest).map
            (fun k => (k, quadsOf (e :: rest) k)) := by
        refine List.map_congr_left ?_
        intro k hk
        have hks : k ∉ e.id :: keys acc :=
          not_mem_seen_of_mem_firstSeenAux rest (e.id :: keys acc) k hk
        have hke : e.id ≠ k := by
          intro h
          exact hks (h ▸ List.mem_cons_self _ _)
        rw [quadsOf_cons, if_neg hke]
      rw [htail]
      simp [quadsOf_cons, List.append_assoc]

theorem itemRadarsMap_eq (wire : List WireEntry) :
    itemRadarsMap wire = (firstSeenIds wire).map (fun k => (k, quadsOf wire k)) := by
  have h := foldl_insertQuadrant wire [] (by simp [keys])
  simpa [itemRadarsMap, firstSeenIds, keys] using h

theorem lookupMap_assignRadar_self (m : RadarsMap) (r : Radar) :
    lookupMap (assignRadar m r) r.id = some r := by
  induction m with
  | nil => simp [assignRadar, lookupMap]
  | cons p rest ih =>
    obtain ⟨k, v⟩ := p
    by_cases h : k = r.id
    · simp [assignRadar, h, lookupMap]
    · simp [assignRadar, h, lookupMap, ih]

theorem lookupMap_assignRadar_ne (m : RadarsMap) (r : Radar) (key : String)
    (h : key ≠ r.id) : lookupMap (assignRadar m r) key = lookupMap m key := by
  have hrk : ¬r.id = key := fun hh => h hh.symm
  induction m with
  | nil => simp [assignRadar, lookupMap, hrk]
  | cons p rest ih =>
    obtain ⟨k, v⟩ := p
    by_cases hk : k = r.id
    · subst hk
      simp [assignRadar, lookupMap, hrk]
    · by_cases hky : k = key
      · subst hky
        simp [assignRadar, hk, lookupMap]
      · simp [assignRadar, hk, lookupMap, hky, ih]

theorem lookupMap_foldl_assign :
    ∀ (radars : List Radar) (m : RadarsMap) (key : String),
      lookupMap (radars.foldl assignRadar m) key =
        match findLastRadar radars key with
        | some r => some r
        | none => lookupMap m key := by
  intro radars
  induction radars with
  | nil => intro m key; simp [findLastRadar]
  | cons r rest ih =>
    intro m key
    rw [List.foldl_cons, ih]
    rw [findLastRadar]
    cases hfl : findLastRadar rest key with
    | some r2 => simp
    | none =>
      simp only
      by_cases hr : r.id = key
      · rw [if_pos hr, ← hr, lookupMap_assignRadar_self]
      · rw [if_neg hr, lookupMap_assignRadar_ne m r key (fun hh => hr hh.symm)]

theorem lookupMap_radarsMap (radars : List Radar) (key : String) :
    lookupMap (radarsMap radars) key = findLastRadar radars key := by
  rw [radarsMap, lookupMap_foldl_assign]
  cases h : findLastRadar radars key <;> simp [lookupMap]

theorem findLastRadar_eq_none (radars : List Radar) (key : String)
    (h : key ∉ radars.map Radar.id) : findLastRadar radars key = none := by
  induction radars with
  | nil => rfl
  | cons r rest ih =>
    simp only [List.map_cons, List.mem_cons] at h
    push_neg at h
    have hrk : ¬r.id = key := fun hh => h.1 hh.symm
    rw [findLastRadar, ih h.2]
    simp [hrk]

theorem findLastRadar_isSome (radars : List Radar) (key : String)
    (h : key ∈ radars.map Radar.id) : (findLastRadar radars key).isSome = true := by
  induction radars with
  | nil => simp at h
  | cons r rest ih =>
    rw [findLastRadar]
    cases hfl : findLastRadar rest key with
    | some r2 => simp
    | none =>
      simp only [List.map_cons, List.mem_cons] at h
      rcases h with h1 | h1
      · simp [h1.symm]
      · have := ih h1
        rw [hfl] at this
        simp at this

theorem findLastRadar_of_nodup (radars : List Radar) (key : String)
    (hnd : (radars.map Radar.id).Nodup) :
    findLastRadar radars key = radars.find? (fun r => r.id == key) := by
  induction radars with
  | nil => rfl
  | cons r rest ih =>
    simp only [List.map_cons, List.nodup_cons] at hnd
    by_cases hk : r.id = key
    · have hnone : findLastRadar rest key = none := by
        apply findLastRadar_eq_none
        rw [← hk]
        exact hnd.1
      rw [findLastRadar, hnone]
      simp [List.find?, hk]
    · have hbeq : (r.id == key) = false := by simp [hk]
      rw [findLastRadar, ih hnd.2]
      cases hf : rest.find? (fun r2 => r2.id == key) with
      | some r2 => simp [List.find?, hbeq, hf]
      | none => simp [List.find?, hbeq, hf, hk]

theorem formatRows_eq_some (rm : RadarsMap) :
    ∀ (m : ItemRadarsMap),
      (∀ k ∈ keys m, (lookupMap rm k).isSome = true) →
      formatRows rm m = some (m.map (fun p =>
        formatItemRadar p.1 (((lookupMap rm p.1).map Radar.name).getD "")
          (formatSelectData p.2))) := by
  intro m
  induction m with
  | nil => intro _; rfl
  | cons p rest ih =>
    intro h
    obtain ⟨k, qs⟩ := p
    have hk : (lookupMap rm k).isSome = true := by
      apply h
      simp [keys]
    obtain ⟨r, hr⟩ := Option.isSome_iff_exists.mp hk
    have hrest := ih (fun k2 hk2 => h k2 (by simp [keys] at hk2 ⊢; right; exact hk2))
    rw [formatRows, hr, hrest]
    simp [hr]

theorem formatRows_isSome (rm : RadarsMap) (m : ItemRadarsMap)
    (h : ∀ k ∈ keys m, (lookupMap rm k).isSome = true) :
    (formatRows rm m).isSome = true := by
  rw [formatRows_eq_some rm m h]
  rfl

theorem keys_itemRadarsMap (wire : List WireEntry) :
    keys (itemRadarsMap wire) = firstSeenIds wire := by
  rw [itemRadarsMap_eq]
  simp only [keys, List.map_map]
  have hpw : ∀ k ∈ firstSeenIds wire,
      (Prod.fst ∘ fun k => (k, quadsOf wire k)) k = k := by
    intro k _
    rfl
  rw [List.map_congr_left hpw]
  simp

theorem lookup_total_of_complete (radars : List Radar) (wire : List WireEntry)
    (hc : ∀ e ∈ wire, e.id ∈ radars.map Radar.id) :
    ∀ k ∈ keys (itemRadarsMap wire), (lookupMap (radarsMap radars) k).isSome = true := by
  intro k hk
  rw [keys_itemRadarsMap] at hk
  have hid : k ∈ wire.map WireEntry.id :=
    mem_ids_of_mem_firstSeenAux wire [] k hk
  obtain ⟨e, he, hek⟩ := List.mem_map.mp hid
  rw [lookupMap_radarsMap]
  exact findLastRadar_isSome radars k (hek ▸ hc e he)

/-- C6: when every radar id referenced by the wire list of the item exists
in the fetched catalog, every grouped radar id resolves in radarsMap (the
booleans below evaluate the lookups), so the label access never reads a
missing catalog entry and the reconciliation row computation succeeds. -/
theorem claim6_label_lookup_total (radars : List Radar) (wire : List WireEntry)
    (hc : ∀ e ∈ wire, e.id ∈ radars.map Radar.id) :
    ((keys (itemRadarsMap wire)).all
      (fun k => (lookupMap (radarsMap radars) k).isSome)) = true ∧
    (formattedItemRadars radars wire).isSome = true := by
  have h := lookup_total_of_complete radars wire hc
  constructor
  · rw [List.all_eq_true]
    intro k hk
    exact h k hk
  · rw [formattedItemRadars]
    exact formatRows_isSome _ _ h

/-- Witness for C6 at the end-to-end scenario inputs. -/
theorem claim6_witness :
    ((keys (itemRadarsMap sampleWire)).all
      (fun k => (lookupMap (radarsMap sampleCatalog) k).isSome)) = true ∧
    (formattedItemRadars sampleCatalog sampleWire).isSome = true :=
  claim6_label_lookup_total sampleCatalog sampleWire (by decide)

/-- C1: on initial load with both fetches resolved and every referenced
radar id present in the catalog of distinct ids, the reconciliation
produces exactly one association row per distinct wire radar id in first
appearance order, the row label resolved from the catalog record of that
id, and the quadrant options the grouped quadrant values in first-seen
wire order, formatted as identity-labelled options; the first-seen ids are
distinct and cover exactly the radar ids of the wire list. -/
theorem claim1_reconciliation_rows (radars : List Radar) (wire : List WireEntry)
    (hnd : (radars.map Radar.id).Nodup)
    (hc : ∀ e ∈ wire, e.id ∈ radars.map Radar.id) :
    formattedItemRadars radars wire =
      some ((firstSeenIds wire).map (fun rid =>
        { radarId := rid, label := catalogLabel radars rid,
          quadrants := formatSelectData (quadsOf wire rid) })) ∧
    (firstSeenIds wire).Nodup ∧
    (firstSeenIds wire).toFinset = (wire.map WireEntry.id).toFinset := by
  have h := lookup_total_of_complete radars wire hc
  refine ⟨?_, nodup_firstSeenAux wire [], ?_⟩
  · rw [formattedItemRadars, formatRows_eq_some _ _ h, itemRadarsMap_eq, List.map_map]
    congr 1
    refine List.map_congr_left ?_
    intro k hk
    have hid : k ∈ wire.map WireEntry.id := mem_ids_of_mem_firstSeenAux wire [] k hk
    obtain ⟨e, he, hek⟩ := List.mem_map.mp hid
    have hsome : (findLastRadar radars k).isSome = true :=
      findLastRadar_isSome radars k (hek ▸ hc e he)
    obtain ⟨r, hr⟩ := Option.isSome_iff_exists.mp hsome
    have hlook : lookupMap (radarsMap radars) k = some r :=
      (lookupMap_radarsMap radars k).trans hr
    have hfind : radars.find? (fun r2 => r2.id == k) = some r :=
      (findLastRadar_of_nodup radars k hnd).symm.trans hr
    simp [formatItemRadar, hlook, catalogLabel, hfind]
  · ext x
    simp only [List.mem_toFinset]
    constructor
    · exact fun hx => mem_ids_of_mem_firstSeenAux wire [] x hx
    · exact fun hx => mem_firstSeenAux_of_mem_ids wire [] x hx (by simp)

/-- Witness for C1 at the end-to-end scenario inputs of the spec. -/
theorem claim1_witness :
    formattedItemRadars sampleCatalog sampleWire =
      some ((firstSeenIds sampleWire).map (fun rid =>
        { radarId := rid, label := catalogLabel sampleCatalog rid,
          quadrants := formatSelectData (quadsOf sampleWire rid) })) ∧
    (firstSeenIds sampleWire).Nodup ∧
    (firstSeenIds sampleWire).toFinset = (sampleWire.map WireEntry.id).toFinset :=
  claim1_reconciliation_rows sampleCatalog sampleWire (by decide) (by decide)

theorem formatRows_proj (rm : RadarsMap) :
    ∀ (m : ItemRadarsMap) (rows : List FormRadarAssoc),
      formatRows rm m = some rows →
      rows.map (fun row => (row.radarId, row.quadrants)) =
        m.map (fun p => (p.1, formatSelectData p.2)) := by
  intro m
  induction m with
  | nil =>
    intro rows h
    rw [formatRows] at h
    injection h with h
    rw [← h]
    rfl
  | cons p rest ih =>
    intro rows h
    obtain ⟨k, qs⟩ := p
    rw [formatRows] at h
    cases h1 : lookupMap rm k with
    | none => rw [h1] at h; exact absurd h (by simp)
    | some r =>
      rw [h1] at h
      cases h2 : formatRows rm rest with
      | none => rw [h2] at h; exact absurd h (by simp)
      | some rows2 =>
        rw [h2] at h
        simp only [Option.some.injEq] at h
        rw [← h, List.map_cons, List.map_cons, ih rows2 h2]
        rfl

theorem transformItemRadars_of_proj :
    ∀ (rows : List FormRadarAssoc) (m : ItemRadarsMap),
      rows.map (fun row => (row.radarId, row.quadrants)) =
        m.map (fun p => (p.1, formatSelectData p.2)) →
      transformItemRadars rows =
        m.flatMap (fun p => p.2.map (fun s => { id := p.1, quadrant := s })) := by
  intro rows
  induction rows with
  | nil =>
    intro m h
    cases m with
    | nil => rfl
    | cons p rest => exact absurd h (by simp)
  | cons row rest ih =>
    intro m h
    cases m with
    | nil => exact absurd h (by simp)
    | cons p mrest =>
      simp only [List.map_cons, List.cons.injEq, Prod.mk.injEq] at h
      obtain ⟨⟨hid, hq⟩, htl⟩ := h
      rw [transformItemRadars, List.flatMap_cons, List.flatMap_cons]
      have hrest : transformItemRadars rest =
          mrest.flatMap (fun p => p.2.map (fun s => { id := p.1, quadrant := s })) :=
        ih mrest htl
      rw [transformItemRadars] at hrest
      rw [hrest, hid, hq]
      congr 1
      rw [formatSelectData, List.map_map]
      rfl

theorem quads_reconstruct (wire : List WireEntry) (k : String) :
    (quadsOf wire k).map (fun s => ({ id := k, quadrant := s } : WireEntry)) =
      wire.filter (fun e => e.id == k) := by
  rw [quadsOf, List.map_map]
  have hpw : ∀ e ∈ wire.filter (fun e => e.id == k),
      ((fun s => ({ id := k, quadrant := s } : WireEntry)) ∘ WireEntry.quadrant) e = e := by
    intro e he
    have : e.id = k := by
      have := List.of_mem_filter he
      simpa using this
    cases e
    simp_all
  rw [List.map_congr_left hpw]
  simp

theorem firstSeen_flatMap_filter_perm :
    ∀ (wire : List WireEntry) (seen : List String),
      ((firstSeenAux seen wire).flatMap
        (fun k => wire.filter (fun e => e.id == k))).Perm
        (wire.filter (fun e => decide (e.id ∉ seen))) := by
  intro wire
  induction wire with
  | nil =>
    intro seen
    simp [firstSeenAux]
  | cons e rest ih =>
    intro seen
    by_cases he : e.id ∈ seen
    · rw [firstSeenAux, if_pos he]
      have hcongr : ∀ k ∈ firstSeenAux seen rest,
          (e :: rest).filter (fun e2 => e2.id == k) =
            rest.filter (fun e2 => e2.id == k) := by
        intro k hk
        have hks : k ∉ seen := not_mem_seen_of_mem_firstSeenAux rest seen k hk
        have hke : (e.id == k) = false := by
          simp only [beq_eq_false_iff_ne, ne_eq]
          intro hh
          exact hks (hh ▸ he)
        rw [List.filter_cons, hke]
        simp
      rw [List.flatMap_congr hcongr]
      have hfe : (decide (e.id ∉ seen)) = false := by simp [he]
      rw [List.filter_cons, hfe]
      simp only [Bool.false_eq_true, if_false]
      exact ih seen
    · rw [firstSeenAux, if_neg he]
      rw [List.flatMap_cons]
      have hhead : (e :: rest).filter (fun e2 => e2.id == e.id) =
          e :: rest.filter (fun e2 => e2.id == e.id) := by
        rw [List.filter_cons]
        simp
      have hcongr : ∀ k ∈ firstSeenAux (e.id :: seen) rest,
          (e :: rest).filter (fun e2 => e2.id == k) =
            rest.filter (fun e2 => e2.id == k) := by
        intro k hk
        have hks : k ∉ e.id :: seen :=
          not_mem_seen_of_mem_firstSeenAux rest (e.id :: seen) k hk
        have hke : (e.id == k) = false := by
          simp only [beq_eq_false_iff_ne, ne_eq]
          intro hh
          exact hks (hh ▸ List.mem_cons_self _ _)
        rw [List.filter_cons, hke]
        simp
      rw [List.flatMap_congr hcongr, hhead]
      have htailperm := ih (e.id :: seen)
      have hfe : (decide (e.id ∉ seen)) = true := by simp [he]
      rw [List.filter_cons, hfe]
      simp only [if_true]
      rw [List.cons_append]
      refine List.Perm.cons e ?_
      have hsplit := List.filter_append_perm (fun e2 => e2.id == e.id)
        (rest.filter (fun e2 => decide (e2.id ∉ seen)))
      have hfilter1 : (rest.filter (fun e2 => decide (e2.id ∉ seen))).filter
          (fun e2 => e2.id == e.id) = rest.filter (fun e2 => e2.id == e.id) := by
        rw [List.filter_filter]
        refine List.filter_congr ?_
        intro a _
        by_cases h1 : a.id = e.id
        · have h2 : a.id ∉ seen := h1 ▸ he
          simp [h1, h2, he]
        · simp [h1]
      have hfilter2 : (rest.filter (fun e2 => decide (e2.id ∉ seen))).filter
          (fun e2 => !(e2.id == e.id)) =
            rest.filter (fun e2 => decide (e2.id ∉ e.id :: seen)) := by
        rw [List.filter_filter]
        refine List.filter_congr ?_
        intro a _
        by_cases h1 : a.id = e.id
        · simp [h1, List.mem_cons]
        · by_cases h2 : a.id ∈ seen
          · simp [h1, h2, List.mem_cons]
          · simp [h1, h2, List.mem_cons]
      have hstep : List.Perm
          (rest.filter (fun e2 => e2.id == e.id) ++
            (firstSeenAux (e.id :: seen) rest).flatMap
              (fun k => rest.filter (fun e2 => e2.id == k)))
          (rest.filter (fun e2 => e2.id == e.id) ++
            rest.filter (fun e2 => decide (e2.id ∉ e.id :: seen))) :=
        List.Perm.append_left _ htailperm
      refine hstep.trans ?_
      rw [← hfilter1, ← hfilter2]
      exact hsplit

/-- C2: grouping a wire list whose radar ids are all present in the
catalog into form association rows and flattening the rows back yields
exactly the contiguous-grouping normal form of the input, which is a
permutation of the input, hence multiset-equal to it. -/
theorem claim2_group_flatten_roundtrip (radars : List Radar)
    (wire : List WireEntry) (rows : List FormRadarAssoc)
    (hc : ∀ e ∈ wire, e.id ∈ radars.map Radar.id)
    (hrows : formattedItemRadars radars wire = some rows) :
    transformItemRadars rows = contiguousGrouping wire ∧
    (transformItemRadars rows).Perm wire := by
  have hrows2 : formatRows (radarsMap radars) (itemRadarsMap wire) = some rows := by
    simpa [formattedItemRadars] using hrows
  have hproj := formatRows_proj (radarsMap radars) (itemRadarsMap wire) rows hrows2
  have htrans := transformItemRadars_of_proj rows (itemRadarsMap wire) hproj
  have heq : transformItemRadars rows = contiguousGrouping wire := by
    rw [htrans, itemRadarsMap_eq, List.flatMap_map, contiguousGrouping]
    refine List.flatMap_congr ?_
    intro k _
    exact quads_reconstruct wire k
  refine ⟨heq, ?_⟩
  rw [heq, contiguousGrouping, firstSeenIds]
  have hperm := firstSeen_flatMap_filter_perm wire []
  have hall : wire.filter (fun e => decide (e.id ∉ ([] : List String))) = wire := by
    simp
  rw [hall] at hperm
  exact hperm

/-- Witness for C2 at the end-to-end scenario inputs; the reconciled rows
are the sample rows, and flattening them recovers the wire list. -/
theorem claim2_witness :
    transformItemRadars sampleRows = contiguousGrouping sampleWire ∧
    (transformItemRadars sampleRows).Perm sampleWire :=
  claim2_group_flatten_roundtrip sampleCatalog sampleWire sampleRows
    (by decide) (by decide)

end RadarAdmin
